import Mathlib

/-!
Verification of the lightbus reliable-transport and value-casting core.

The repository ships the unit tests (`tests/utilities/test_unit_casting.py`,
`tests/redis_transports/test_reliability_redis_rpc.py`), the human-readable
helpers (`lightbus/utilities/human.py`) and a documentation example.  The
casting engine (`lightbus/utilities/casting.py`), the stream-id arithmetic
(`lightbus/transports/redis.py`) and the RPC worker loop are referenced by
those tests but their sources are not included, so they are modelled here
from the specification (sections 4.1 to 4.4), with the shipped unit tests
pinning the concrete behaviour wherever they exercise it.
-/

namespace Lightbus

/-- Modelled from the spec: the loosely-typed wire value tree exchanged over
the broker (scalars, ordered collections, string-keyed maps), extended with
the typed application values the casting engine produces (enum members,
typed records) and an opaque application object (the tests pass a bare
`object()` through the engine).  Maps and records are association lists to
keep field order observable, as the spec requires ordered field maps. -/
inductive Value where
  | vnone
  | vint (n : Int)
  | vbool (b : Bool)
  | vstr (s : String)
  | vlist (xs : List Value)
  | vmap (entries : List (String × Value))
  | vmember (memberName : String)
  | vrecord (typeName : String) (fields : List (String × Value))
  | vobj (objId : Nat)

mutual

def decEqValue (a b : Value) : Decidable (a = b) := by
  cases a <;> cases b <;>
  try { apply isFalse ; intro hne ; injection hne }
  case vnone.vnone => exact isTrue rfl
  case vint.vint x y | vbool.vbool x y | vstr.vstr x y | vmember.vmember x y
      | vobj.vobj x y =>
    exact match decEq x y with
    | isTrue h => isTrue (by rw [h])
    | isFalse h => isFalse (by intro hc; injection hc; contradiction)
  case vlist.vlist xs ys =>
    exact match decEqValueList xs ys with
    | isTrue h => isTrue (by rw [h])
    | isFalse h => isFalse (by intro hc; injection hc; contradiction)
  case vmap.vmap xs ys =>
    exact match decEqEntryList xs ys with
    | isTrue h => isTrue (by rw [h])
    | isFalse h => isFalse (by intro hc; injection hc; contradiction)
  case vrecord.vrecord n xs m ys =>
    exact match decEq n m, decEqEntryList xs ys with
    | isTrue h1, isTrue h2 => isTrue (by rw [h1, h2])
    | isFalse h1, _ => isFalse (by intro hc; injection hc; contradiction)
    | _, isFalse h2 => isFalse (by intro hc; injection hc; contradiction)

def decEqValueList (xs ys : List Value) : Decidable (xs = ys) :=
  match xs, ys with
  | [], [] => isTrue rfl
  | _ :: _, [] | [], _ :: _ => isFalse (by intro hc; cases hc)
  | x :: xs, y :: ys =>
    match decEqValue x y, decEqValueList xs ys with
    | isTrue h1, isTrue h2 => isTrue (by rw [h1, h2])
    | isFalse h1, _ => isFalse (by intro hc; injection hc; contradiction)
    | _, isFalse h2 => isFalse (by intro hc; injection hc; contradiction)

def decEqEntryList (xs ys : List (String × Value)) : Decidable (xs = ys) :=
  match xs, ys with
  | [], [] => isTrue rfl
  | _ :: _, [] | [], _ :: _ => isFalse (by intro hc; cases hc)
  | (k, x) :: xs, (l, y) :: ys =>
    match decEq k l, decEqValue x y, decEqEntryList xs ys with
    | isTrue h0, isTrue h1, isTrue h2 => isTrue (by rw [h0, h1, h2])
    | isFalse h0, _, _ => isFalse (by intro hc; injection hc with he ht; injection he; contradiction)
    | _, isFalse h1, _ => isFalse (by intro hc; injection hc with he ht; injection he; contradiction)
    | _, _, isFalse h2 => isFalse (by intro hc; injection hc; contradiction)

end

instance : DecidableEq Value := decEqValue

/-- Modelled from the spec: the Type Descriptor tree of section 3, the tagged
variant `{Primitive, Optional, Enum, Sequence, Record, CustomConstructible,
Any, Unsupported}` built once per signature.  An enum descriptor carries its
members as `(name, value)` pairs; a record descriptor carries its type name,
its ordered field descriptors and, when the target type exposes the
construct-from-mapping capability (`__from_bus__`), that factory. -/
inductive Hint where
  | hAny
  | hUnsupported
  | hInt
  | hBool
  | hStr
  | hOptional (inner : Hint)
  | hEnum (members : List (String × Value))
  | hList (elem : Option Hint)
  | hRecord (typeName : String) (fields : List (String × Hint))
      (fromBus : Option (List (String × Value) → Value))

/-- Errors raised by the casting engine: per the spec only a Record or
CustomConstructible target that cannot be constructed raises. -/
abbrev CastResult := Except String Value

instance {ε α : Type} [DecidableEq ε] [DecidableEq α] : DecidableEq (Except ε α) := fun a b =>
  match a, b with
  | .ok x, .ok y =>
    match decEq x y with
    | isTrue h => isTrue (by rw [h])
    | isFalse h => isFalse (by intro hc; injection hc; contradiction)
  | .error x, .error y =>
    match decEq x y with
    | isTrue h => isTrue (by rw [h])
    | isFalse h => isFalse (by intro hc; injection hc; contradiction)
  | .ok _, .error _ => isFalse (by intro hc; cases hc)
  | .error _, .ok _ => isFalse (by intro hc; cases hc)

/-- Accumulate the value of a decimal digit string; `none` on any
non-digit character. -/
def digitsVal : List Char → Nat → Option Nat
  | [], acc => some acc
  | c :: cs, acc => if c.isDigit then digitsVal cs (acc * 10 + (c.toNat - 48)) else none

/-- Modelled from the spec: parsing a numeric-target hint from a string
(section 4.1, "for numeric-target hints from a string, parse"), as Python
`int(s)` behaves on decimal strings: an optional sign followed by at least
one digit parses; anything else (empty, non-digit characters, a decimal
point) fails, which the engine turns into passthrough. -/
def str_to_int? (s : String) : Option Int :=
  match s.toList with
  | [] => none
  | '-' :: cs => if cs.isEmpty then none else (digitsVal cs 0).map (fun n => -(n : Int))
  | '+' :: cs => if cs.isEmpty then none else (digitsVal cs 0).map (fun n => (n : Int))
  | cs => (digitsVal cs 0).map (fun n => (n : Int))

mutual

/-- Modelled from the spec: `from_wire` / `cast_to_hint` of section 4.1,
dispatching on the descriptor tag.  `None` maps to `None` under any
descriptor; `Any`/`Unsupported` pass the wire value through; primitive
targets parse or stringify where a conversion is defined and otherwise
return the value unchanged; enum descriptors match the wire value against
member values (the shipped test casts `"a"` to `ExampleEnum.foo`, whose
value is `"a"`); sequences cast elementwise; records construct the target
from the declared fields, preferring the `__from_bus__` factory. -/
def cast_to_hint (value : Value) (hint : Hint) : CastResult :=
  match hint with
  | .hAny => .ok value
  | .hUnsupported => .ok value
  | .hOptional inner =>
    match value with
    | .vnone => .ok .vnone
    | v => cast_to_hint v inner
  | .hInt =>
    match value with
    | .vnone => .ok .vnone
    | .vint n => .ok (.vint n)
    | .vstr s =>
      match str_to_int? s with
      | some n => .ok (.vint n)
      | none => .ok (.vstr s)
    | v => .ok v
  | .hBool =>
    match value with
    | .vnone => .ok .vnone
    | .vbool b => .ok (.vbool b)
    | .vstr s => .ok (.vbool (!(s == "")))
    | .vint n => .ok (.vbool (!(n == 0)))
    | v => .ok v
  | .hStr =>
    match value with
    | .vnone => .ok .vnone
    | .vstr s => .ok (.vstr s)
    | .vint n => .ok (.vstr (toString n))
    | .vbool b => .ok (.vstr (if b then "True" else "False"))
    | v => .ok v
  | .hEnum members =>
    match value with
    | .vnone => .ok .vnone
    | v =>
      match members.find? (fun p => p.2 == v) with
      | some p => .ok (.vmember p.1)
      | none => .ok v
  | .hList elem =>
    match value with
    | .vnone => .ok .vnone
    | .vlist xs =>
      match elem with
      | none => .ok (.vlist xs)
      | some eh => (cast_items xs eh).map .vlist
    | v => .ok v
  | .hRecord typeName fields fromBus =>
    match value with
    | .vnone => .ok .vnone
    | .vmap entries =>
      match fromBus with
      | some factory => .ok (factory entries)
      | none => (cast_fields entries fields).map (.vrecord typeName)
    | v => .ok v
termination_by (sizeOf hint, 0)

/-- Modelled from the spec: elementwise casting of an ordered collection via
the element descriptor, propagating any element construction failure. -/
def cast_items (xs : List Value) (eh : Hint) : Except String (List Value) :=
  match xs with
  | [] => .ok []
  | x :: rest => do
    let y ← cast_to_hint x eh
    let ys ← cast_items rest eh
    return y :: ys
termination_by (sizeOf eh, xs.length + 1)

/-- Modelled from the spec: record construction of section 4.1 — each
declared field is cast via its descriptor; extra wire keys are ignored; a
missing optional field resolves to `None`; a missing required field raises
the construction failure. -/
def cast_fields (entries : List (String × Value)) (fields : List (String × Hint)) :
    Except String (List (String × Value)) :=
  match fields with
  | [] => .ok []
  | (fieldName, fh) :: rest => do
    let fv ←
      match entries.lookup fieldName with
      | some wv => cast_to_hint wv fh
      | none =>
        match fh with
        | .hOptional _ => .ok Value.vnone
        | _ => .error ("missing required field: " ++ fieldName)
    let restCast ← cast_fields entries rest
    return (fieldName, fv) :: restCast
termination_by (sizeOf fields, 0)

end

/-- Modelled from the spec: one parameter of a procedure signature — its
name and its declared type descriptor, `none` when the parameter is
unannotated. -/
structure Param where
  name : String
  hint : Option Hint

/-- The descriptor declared for parameter `k` in the signature, `none` when
the parameter is absent from the signature or carries no annotation. -/
def paramHint (sig : List Param) (k : String) : Option Hint :=
  (sig.find? (fun p => p.name == k)).bind (fun p => p.hint)

/-- Modelled from the spec: casting of a single supplied keyword argument —
`from_wire` is applied only when the signature declares a descriptor for
the parameter; otherwise the wire value passes through unchanged. -/
def cast_one_parameter (sig : List Param) (k : String) (v : Value) : CastResult :=
  match paramHint sig k with
  | some h => cast_to_hint v h
  | none => .ok v

/-- Modelled from the spec: `cast_to_signature` / `cast_parameters` of
section 4.1 — each supplied keyword argument is cast via the descriptor the
signature declares for it, and arguments without a declared descriptor pass
through unchanged. -/
def cast_to_signature (sig : List Param) (parameters : List (String × Value)) :
    Except String (List (String × Value)) :=
  match parameters with
  | [] => .ok []
  | (k, v) :: rest => do
    let r ← cast_one_parameter sig k v
    let rest2 ← cast_to_signature sig rest
    return (k, r) :: rest2

/-- Hints whose descriptor tree contains no Record/CustomConstructible
target: per section 4.1 these are exactly the descriptors whose casting is
a non-fatal passthrough on mismatch. -/
inductive RecordFree : Hint → Prop where
  | hAny : RecordFree .hAny
  | hUnsupported : RecordFree .hUnsupported
  | hInt : RecordFree .hInt
  | hBool : RecordFree .hBool
  | hStr : RecordFree .hStr
  | hOptional {h : Hint} : RecordFree h → RecordFree (.hOptional h)
  | hEnum (members : List (String × Value)) : RecordFree (.hEnum members)
  | hListNone : RecordFree (.hList none)
  | hListSome {h : Hint} : RecordFree h → RecordFree (.hList (some h))

/-- Modelled from the spec: a broker entry id, a pair of a millisecond
timestamp and a sequence number (section 4.2).  The Python implementation
manipulates them as unbounded integers, so the components are modelled as
integers and ids valid on the broker are singled out by `validStreamId`. -/
structure StreamId where
  timestamp : Int
  sequence : Int
deriving DecidableEq

/-- Modelled from the spec: the largest sequence number a broker entry id
can carry (the sequence component is a 64-bit unsigned integer). -/
def MAX_SEQUENCE : Int := 18446744073709551615

/-- An id the broker can actually assign: both components non-negative and
the sequence within range. -/
def validStreamId (id : StreamId) : Prop :=
  0 ≤ id.timestamp ∧ 0 ≤ id.sequence ∧ id.sequence ≤ MAX_SEQUENCE

instance (id : StreamId) : Decidable (validStreamId id) := by
  unfold validStreamId; infer_instance

/-- Lexicographic ordering of entry ids, timestamp first (section 4.2). -/
def StreamId.lt (a b : StreamId) : Prop :=
  a.timestamp < b.timestamp ∨ (a.timestamp = b.timestamp ∧ a.sequence < b.sequence)

instance (a b : StreamId) : Decidable (a.lt b) := by
  unfold StreamId.lt; infer_instance

/-- Modelled from the spec: `predecessor(id)` of section 4.2, named after
the implementation symbol the unit tests import — if the sequence is
positive, decrement it; otherwise move to the previous timestamp with the
maximal sequence. -/
def redis_stream_id_subtract_one (id : StreamId) : StreamId :=
  if id.sequence > 0 then ⟨id.timestamp, id.sequence - 1⟩
  else ⟨id.timestamp - 1, MAX_SEQUENCE⟩

/-- Modelled from the spec: what invoking the procedure on a claimed entry
does (section 4.3) — it returns a value, raises an exception, or the worker
process dies mid-processing. -/
inductive HandlerOutcome where
  | returns (v : Value)
  | raises (kind message : String)
  | crashes
deriving DecidableEq

/-- Modelled from the spec: the RPC Result Message — the call id it answers
plus either a result wire value or an error descriptor of kind and message,
mutually exclusive (section 3 and section 6). -/
structure ResultMessage where
  call_id : String
  result : Option Value
  error : Option (String × String)
deriving DecidableEq

/-- Modelled from the spec: the per-entry worker state machine `Pending →
Claimed → {Acknowledged | Abandoned}` of section 4.3; an abandoned entry
stays claimed-but-unacknowledged. -/
inductive EntryState where
  | pending
  | claimed
  | acknowledged
deriving DecidableEq

/-- Modelled from the spec: the worker's handling of one claimed entry
(section 4.3) — publish a Result Message carrying the return value, or an
error descriptor when the procedure raises, then acknowledge; a crash
between claim and acknowledge publishes nothing and leaves the entry
claimed. -/
def worker_handle_entry (call_id : String) (outcome : HandlerOutcome) :
    Option ResultMessage × EntryState :=
  match outcome with
  | .returns v => (some ⟨call_id, some v, none⟩, .acknowledged)
  | .raises kind message => (some ⟨call_id, none, some (kind, message)⟩, .acknowledged)
  | .crashes => (none, .claimed)

/-- Modelled from the spec: an entry is reclaimed and redelivered exactly
when it was never acknowledged (sections 3 and 4.3: an entry is never
removed from the log until acknowledged, and crash-without-ack is recovered
by reclaim). -/
def redelivered (s : EntryState) : Bool :=
  match s with
  | .acknowledged => false
  | .claimed => true
  | .pending => true

/-- The unit a `human_time` rendering carries. -/
inductive HumanTimeUnit where
  | seconds
  | milliseconds
deriving DecidableEq

/-- Rounding to two decimal places, as `round(x, 2)` does. -/
def round2 (q : ℚ) : ℚ := (round (q * 100) : ℤ) / 100

/-- `human_time` from `lightbus/utilities/human.py`: above one second the
number of seconds rounded to two decimals is rendered with the unit
"seconds"; otherwise the number of milliseconds rounded to two decimals is
rendered with the unit "milliseconds".  The model captures the numeric
content and unit suffix of the returned string. -/
def human_time (seconds : ℚ) : HumanTimeUnit × ℚ :=
  if seconds > 1 then (.seconds, round2 seconds)
  else (.milliseconds, round2 (seconds * 1000))

/-- A signature in which every parameter is unannotated declares no
descriptor for any name. -/
theorem paramHint_eq_none_of_all_none (sig : List Param) (k : String)
    (hall : ∀ p ∈ sig, p.hint = none) : paramHint sig k = none := by
  unfold paramHint
  cases hf : sig.find? (fun p => p.name == k) with
  | none => rfl
  | some p => simp [hall p (List.mem_of_find?_eq_some hf)]

/-- Enum casting dispatches on the member-table lookup once the wire value
is not `None`. -/
theorem cast_to_hint_enum (members : List (String × Value)) (v : Value) (hv : v ≠ .vnone) :
    cast_to_hint v (.hEnum members) =
      match members.find? (fun p => p.2 == v) with
      | some p => .ok (.vmember p.1)
      | none => .ok v := by
  cases v <;> first
    | exact absurd rfl hv
    | simp [cast_to_hint]

/-- C2: when the invoked procedure raises, the worker publishes a Result
Message carrying the error descriptor (kind and message) instead of a
result and still acknowledges the entry, so it is never redelivered; an
entry is redelivered exactly when the worker crashed between claim and
acknowledge, producing no outcome. -/
theorem rpc_worker_error_acknowledged (call_id kind message : String) :
    worker_handle_entry call_id (.raises kind message)
      = (some ⟨call_id, none, some (kind, message)⟩, .acknowledged) ∧
    redelivered (worker_handle_entry call_id (.raises kind message)).2 = false ∧
    (∀ outcome : HandlerOutcome,
      redelivered (worker_handle_entry call_id outcome).2 = true ↔ outcome = .crashes) := by
  refine ⟨rfl, rfl, fun outcome => ?_⟩
  cases outcome <;> simp [worker_handle_entry, redelivered]

/-- C7: casting the wire map `{"a": 1, "b": "2"}` to the two-field record
descriptor `{a: str, b: int}` yields the record `{a: "1", b: 2}`, and
casting `{"val": {"a": 1, "b": "2"}}` to a record descriptor wrapping that
record applies the same per-field coercions recursively. -/
theorem record_cast_concrete_examples :
    cast_to_hint (.vmap [("a", .vint 1), ("b", .vstr "2")])
      (.hRecord "SimpleNamedTuple" [("a", .hStr), ("b", .hInt)] none)
      = .ok (.vrecord "SimpleNamedTuple" [("a", .vstr "1"), ("b", .vint 2)]) ∧
    cast_to_hint (.vmap [("val", .vmap [("a", .vint 1), ("b", .vstr "2")])])
      (.hRecord "ComplexNamedTuple"
        [("val", .hRecord "SimpleNamedTuple" [("a", .hStr), ("b", .hInt)] none)] none)
      = .ok (.vrecord "ComplexNamedTuple"
          [("val", .vrecord "SimpleNamedTuple" [("a", .vstr "1"), ("b", .vint 2)])]) := by
  constructor
  · simp [cast_to_hint, cast_fields, List.lookup]
    decide
  · simp [cast_to_hint, cast_fields, List.lookup]
    decide

/-- C8: for every wire map and every record-like target exposing the
construct-from-mapping capability (`__from_bus__`), casting invokes the
capability on the wire map and returns its result, regardless of the
target's declared fields — the capability takes precedence over generic
record construction. -/
theorem from_bus_takes_precedence (entries : List (String × Value)) (typeName : String)
    (fields : List (String × Hint)) (factory : List (String × Value) → Value) :
    cast_to_hint (.vmap entries) (.hRecord typeName fields (some factory))
      = .ok (factory entries) := by
  simp [cast_to_hint]

/-- C9: casting a string to a `bool` hint follows string truthiness: the
empty string casts to `False`, every non-empty string (including `"0"` and
`"false"`) casts to `True`, and a value already of type `bool` is returned
unchanged. -/
theorem bool_cast_string_truthiness :
    cast_to_hint (.vstr "") .hBool = .ok (.vbool false) ∧
    (∀ s : String, s ≠ "" → cast_to_hint (.vstr s) .hBool = .ok (.vbool true)) ∧
    (∀ b : Bool, cast_to_hint (.vbool b) .hBool = .ok (.vbool b)) := by
  refine ⟨by simp [cast_to_hint], fun s hs => ?_, fun b => by simp [cast_to_hint]⟩
  simp [cast_to_hint, beq_eq_false_iff_ne.mpr hs]

/-- Witness for C9 at the strings `"0"` and `"false"`. -/
theorem bool_cast_string_truthiness_witness :
    cast_to_hint (.vstr "0") .hBool = .ok (.vbool true) ∧
    cast_to_hint (.vstr "false") .hBool = .ok (.vbool true) :=
  ⟨bool_cast_string_truthiness.2.1 "0" (by decide),
   bool_cast_string_truthiness.2.1 "false" (by decide)⟩

/-- C10: `human_time` renders in the unit "seconds" exactly when the input
exceeds one second; every input less than or equal to one — including
exactly one, which yields 1000 milliseconds, and all non-positive inputs —
is rendered as the input times 1000, rounded to two decimals, in the unit
"milliseconds". -/
theorem human_time_unit_threshold :
    (∀ s : ℚ, (human_time s).1 = .seconds ↔ 1 < s) ∧
    (∀ s : ℚ, 1 < s → human_time s = (.seconds, round2 s)) ∧
    (∀ s : ℚ, s ≤ 1 → human_time s = (.milliseconds, round2 (s * 1000))) ∧
    human_time 1 = (.milliseconds, 1000) := by
  refine ⟨fun s => ?_, fun s hs => ?_, fun s hs => ?_, ?_⟩
  · by_cases hs : 1 < s <;> simp [human_time, hs]
  · simp [human_time, hs]
  · simp [human_time, not_lt.mpr hs]
  · norm_num [human_time, round2]

/-- Witness for C10 at two seconds and at half a second. -/
theorem human_time_unit_threshold_witness :
    human_time 2 = (.seconds, round2 2) ∧
    human_time (1 / 2) = (.milliseconds, round2 (1 / 2 * 1000)) :=
  ⟨human_time_unit_threshold.2.1 2 (by norm_num),
   human_time_unit_threshold.2.2.1 (1 / 2) (by norm_num)⟩

/-- C6: `cast_to_signature` returns parameters that lack a declared type
annotation, or whose annotation is `Any` or a type the engine does not
recognize, completely unchanged regardless of the wire value's shape; a
fully unannotated signature leaves the whole keyword-argument map
untouched. -/
theorem untyped_parameters_pass_through (sig : List Param) (k : String) (v : Value) :
    (paramHint sig k = none → cast_one_parameter sig k v = .ok v) ∧
    (paramHint sig k = some .hAny → cast_one_parameter sig k v = .ok v) ∧
    (paramHint sig k = some .hUnsupported → cast_one_parameter sig k v = .ok v) ∧
    (∀ parameters : List (String × Value), (∀ p ∈ sig, p.hint = none) →
      cast_to_signature sig parameters = .ok parameters) := by
  refine ⟨fun h => ?_, fun h => ?_, fun h => ?_, fun parameters hall => ?_⟩
  · simp [cast_one_parameter, h]
  · simp [cast_one_parameter, h, cast_to_hint]
  · simp [cast_one_parameter, h, cast_to_hint]
  · induction parameters with
    | nil => rfl
    | cons kv rest ih =>
      obtain ⟨k2, v2⟩ := kv
      simp [cast_to_signature, cast_one_parameter,
        paramHint_eq_none_of_all_none sig k2 hall, ih]
      rfl

/-- Witness for C6: an unannotated parameter `c` carrying an opaque object
passes through, and a fully unannotated signature leaves the map alone. -/
theorem untyped_parameters_pass_through_witness :
    cast_one_parameter [⟨"a", none⟩] "c" (.vobj 7) = .ok (.vobj 7) ∧
    cast_to_signature [⟨"a", none⟩, ⟨"b", none⟩]
      [("a", .vstr "1"), ("b", .vint 2)] = .ok [("a", .vstr "1"), ("b", .vint 2)] :=
  ⟨(untyped_parameters_pass_through [⟨"a", none⟩] "c" (.vobj 7)).1 rfl,
   (untyped_parameters_pass_through [⟨"a", none⟩, ⟨"b", none⟩] "" .vnone).2.2.2
     [("a", .vstr "1"), ("b", .vint 2)] (by simp)⟩

/-- C3 counterexample: with the unit tests' `ExampleEnum` (member `foo`
has value `"a"`, member `bar` has value `"b"`) and wire value `"a"`, the
wire value differs from every member NAME, yet casting does not return it
unchanged — it returns the member `foo`, whose VALUE is `"a"`, exactly as
the shipped test `test_cast_to_annotation[enum]` asserts. -/
theorem enum_cast_name_matching_counterexample :
    (∀ p ∈ [("foo", Value.vstr "a"), ("bar", Value.vstr "b")], p.1 ≠ "a") ∧
    cast_to_hint (.vstr "a") (.hEnum [("foo", .vstr "a"), ("bar", .vstr "b")])
      = .ok (.vmember "foo") ∧
    cast_to_hint (.vstr "a") (.hEnum [("foo", .vstr "a"), ("bar", .vstr "b")])
      ≠ .ok (.vstr "a") := by
  have h : cast_to_hint (.vstr "a") (.hEnum [("foo", .vstr "a"), ("bar", .vstr "b")])
      = .ok (.vmember "foo") := by
    simp [cast_to_hint, List.find?]
  exact ⟨by decide, h, by rw [h]; decide⟩

/-- C3 (amended): enum casting matches the wire value against member
VALUES, not member names: the cast never raises; a wire value that differs
from every member's value is returned unchanged; and when member values
are distinct (as in a Python `Enum`, where duplicate values are mere
aliases), a wire value equal to the value of member `n` casts to that
member. -/
theorem enum_cast_matches_member_value (members : List (String × Value)) (v : Value) :
    (∃ r, cast_to_hint v (.hEnum members) = .ok r) ∧
    ((∀ p ∈ members, p.2 ≠ v) → cast_to_hint v (.hEnum members) = .ok v) ∧
    (∀ n : String, v ≠ .vnone → (members.map Prod.snd).Nodup → (n, v) ∈ members →
      cast_to_hint v (.hEnum members) = .ok (.vmember n)) := by
  refine ⟨?_, fun hno => ?_, fun n hv hnd hmem => ?_⟩
  · by_cases hv : v = .vnone
    · subst hv; exact ⟨.vnone, by simp [cast_to_hint]⟩
    · rw [cast_to_hint_enum members v hv]
      cases members.find? (fun p => p.2 == v) with
      | none => exact ⟨v, rfl⟩
      | some p => exact ⟨.vmember p.1, rfl⟩
  · by_cases hv : v = .vnone
    · subst hv; simp [cast_to_hint]
    · rw [cast_to_hint_enum members v hv]
      have hf : members.find? (fun p => p.2 == v) = none := by
        rw [List.find?_eq_none]
        intro p hp
        simpa using hno p hp
      rw [hf]
  · rw [cast_to_hint_enum members v hv]
    have hsome : (members.find? (fun p => p.2 == v)).isSome := by
      rw [List.find?_isSome]
      exact ⟨(n, v), hmem, by simp⟩
    obtain ⟨q, hq⟩ := Option.isSome_iff_exists.mp hsome
    have hqmem : q ∈ members := List.mem_of_find?_eq_some hq
    have hqv : q.2 = v := by simpa using List.find?_some hq
    have hqe : q = (n, v) :=
      List.inj_on_of_nodup_map hnd hqmem hmem (by simpa using hqv)
    rw [hq, hqe]

/-- Elementwise casting succeeds whenever every element cast succeeds. -/
theorem cast_items_ok (xs : List Value) (eh : Hint)
    (ih : ∀ v, ∃ r, cast_to_hint v eh = .ok r) :
    ∃ rs, cast_items xs eh = .ok rs := by
  induction xs with
  | nil => exact ⟨[], by simp [cast_items]⟩
  | cons x rest ihr =>
    obtain ⟨r, hr⟩ := ih x
    obtain ⟨rs, hrs⟩ := ihr
    refine ⟨r :: rs, ?_⟩
    simp only [cast_items, hr, hrs]
    rfl

/-- Casting with a descriptor free of Record/CustomConstructible targets
never raises. -/
theorem recordFree_cast_ok (h : Hint) (hrf : RecordFree h) (v : Value) :
    ∃ r, cast_to_hint v h = .ok r := by
  induction hrf generalizing v with
  | hAny => exact ⟨v, by simp [cast_to_hint]⟩
  | hUnsupported => exact ⟨v, by simp [cast_to_hint]⟩
  | hInt =>
    cases v <;> simp [cast_to_hint]
    split <;> simp
  | hBool => cases v <;> simp [cast_to_hint]
  | hStr => cases v <;> simp [cast_to_hint]
  | hOptional hrf ih =>
    cases v <;> simp [cast_to_hint] <;> exact ih _
  | hEnum members =>
    cases v <;> simp [cast_to_hint] <;> (split <;> simp)
  | hListNone => cases v <;> simp [cast_to_hint]
  | hListSome hrf ih =>
    cases v <;> simp [cast_to_hint]
    obtain ⟨rs, hrs⟩ := cast_items_ok _ _ ih
    exact ⟨.vlist rs, by rw [hrs]; rfl⟩

/-- C4: for primitive and unrecognized (non-Record, non-CustomConstructible)
descriptors, a wire value the defined conversion does not apply to — a
non-numeric string for an `int` target, any value for `Any` or an
unsupported custom class — is returned unchanged, and casting with any
record-free descriptor never raises; an error arises only from record
construction, as when a required field is missing. -/
theorem cast_mismatch_passthrough_never_raises :
    (∀ v, cast_to_hint v .hAny = .ok v) ∧
    (∀ v, cast_to_hint v .hUnsupported = .ok v) ∧
    (∀ s, str_to_int? s = none → cast_to_hint (.vstr s) .hInt = .ok (.vstr s)) ∧
    (∀ (v : Value) (h : Hint), RecordFree h → ∃ r, cast_to_hint v h = .ok r) ∧
    (∃ e, cast_to_hint (.vmap []) (.hRecord "R" [("a", .hInt)] none) = .error e) := by
  refine ⟨fun v => by simp [cast_to_hint], fun v => by simp [cast_to_hint],
    fun s hs => by simp [cast_to_hint, hs],
    fun v h hrf => recordFree_cast_ok h hrf v, ?_⟩
  refine ⟨"missing required field: a", ?_⟩
  simp only [cast_to_hint, cast_fields, List.lookup]
  rfl

/-- Witness for C4: the non-numeric string `"a"` survives an `int` cast
unchanged, and casting an opaque object to `bool` succeeds. -/
theorem cast_mismatch_passthrough_never_raises_witness :
    cast_to_hint (.vstr "a") .hInt = .ok (.vstr "a") ∧
    (∃ r, cast_to_hint (.vobj 3) .hBool = .ok r) :=
  ⟨cast_mismatch_passthrough_never_raises.2.2.1 "a" (by decide),
   cast_mismatch_passthrough_never_raises.2.2.2.1 (.vobj 3) .hBool RecordFree.hBool⟩

/-- C5: on every valid entry id, `predecessor` decrements the sequence when
positive and otherwise moves to the previous timestamp with the maximal
sequence; the predecessor is strictly below the id in the lexicographic
order, and no valid id lies strictly between the two. -/
theorem stream_id_predecessor_adjacent (id : StreamId) (hv : validStreamId id) :
    (id.sequence > 0 → redis_stream_id_subtract_one id = ⟨id.timestamp, id.sequence - 1⟩) ∧
    (¬ id.sequence > 0 → redis_stream_id_subtract_one id = ⟨id.timestamp - 1, MAX_SEQUENCE⟩) ∧
    StreamId.lt (redis_stream_id_subtract_one id) id ∧
    (∀ i : StreamId, validStreamId i →
      ¬ (StreamId.lt (redis_stream_id_subtract_one id) i ∧ StreamId.lt i id)) := by
  obtain ⟨ht0, hs0, hsM⟩ := hv
  by_cases hs : id.sequence > 0
  · have hpred : redis_stream_id_subtract_one id = ⟨id.timestamp, id.sequence - 1⟩ := by
      unfold redis_stream_id_subtract_one
      rw [if_pos hs]
    refine ⟨fun _ => hpred, fun hc => absurd hs hc, ?_, ?_⟩
    · rw [hpred]
      have hdec : id.sequence - 1 < id.sequence := by omega
      exact Or.inr ⟨rfl, hdec⟩
    · rintro i ⟨hit, his, hisM⟩ ⟨hlt1, hlt2⟩
      rw [hpred] at hlt1
      have h1 : id.timestamp < i.timestamp ∨
          (id.timestamp = i.timestamp ∧ id.sequence - 1 < i.sequence) := hlt1
      have h2 : i.timestamp < id.timestamp ∨
          (i.timestamp = id.timestamp ∧ i.sequence < id.sequence) := hlt2
      omega
  · have hpred : redis_stream_id_subtract_one id = ⟨id.timestamp - 1, MAX_SEQUENCE⟩ := by
      unfold redis_stream_id_subtract_one
      rw [if_neg hs]
    refine ⟨fun hc => absurd hc hs, fun _ => hpred, ?_, ?_⟩
    · rw [hpred]
      have hdec : id.timestamp - 1 < id.timestamp := by omega
      exact Or.inl hdec
    · rintro i ⟨hit, his, hisM⟩ ⟨hlt1, hlt2⟩
      rw [hpred] at hlt1
      have h1 : id.timestamp - 1 < i.timestamp ∨
          (id.timestamp - 1 = i.timestamp ∧ MAX_SEQUENCE < i.sequence) := hlt1
      have h2 : i.timestamp < id.timestamp ∨
          (i.timestamp = id.timestamp ∧ i.sequence < id.sequence) := hlt2
      have hM : MAX_SEQUENCE = 18446744073709551615 := rfl
      rw [hM] at h1 hisM
      omega

/-- Witness for C5 at the id `(5, 0)`, whose predecessor rolls back to the
previous timestamp, with the valid id `(4, 7)` checked not to lie between
the two. -/
theorem stream_id_predecessor_adjacent_witness :
    redis_stream_id_subtract_one ⟨5, 0⟩ = ⟨4, MAX_SEQUENCE⟩ ∧
    StreamId.lt (redis_stream_id_subtract_one ⟨5, 0⟩) ⟨5, 0⟩ ∧
    ¬ (StreamId.lt (redis_stream_id_subtract_one ⟨5, 0⟩) ⟨4, 7⟩ ∧
        StreamId.lt ⟨4, 7⟩ ⟨5, 0⟩) :=
  ⟨(stream_id_predecessor_adjacent ⟨5, 0⟩ (by decide)).2.1 (by decide),
   (stream_id_predecessor_adjacent ⟨5, 0⟩ (by decide)).2.2.1,
   (stream_id_predecessor_adjacent ⟨5, 0⟩ (by decide)).2.2.2 ⟨4, 7⟩ (by decide)⟩

/-- Witness for C3 at the unit tests' `ExampleEnum`: the unknown wire
value `"x"` passes through unchanged, and the wire value `"a"` casts to
the member `foo`. -/
theorem enum_cast_matches_member_value_witness :
    cast_to_hint (.vstr "x") (.hEnum [("foo", .vstr "a"), ("bar", .vstr "b")])
      = .ok (.vstr "x") ∧
    cast_to_hint (.vstr "a") (.hEnum [("foo", .vstr "a"), ("bar", .vstr "b")])
      = .ok (.vmember "foo") :=
  ⟨(enum_cast_matches_member_value [("foo", .vstr "a"), ("bar", .vstr "b")]
      (.vstr "x")).2.1 (by decide),
   (enum_cast_matches_member_value [("foo", .vstr "a"), ("bar", .vstr "b")]
      (.vstr "a")).2.2 "foo" (by decide) (by decide) (by decide)⟩

end Lightbus
